import Mathlib

/-!
Verification development for the corpus dispersion metrics engine.

The repository exposes a `DispersionMetrics` result record (src/src/metrics.rs)
with an integer `range` field and fifteen optional floating-point metric
fields, plus a `__repr__` formatting method.  The metrics computation engine
itself is not part of the available source; it is modelled here from the
specification.  Machine floats are modelled as real numbers (for the engine)
and as rationals (for the formatting routine, where computability is needed).
-/

namespace CorpusDispersion

/-- Mirror of the Rust struct `DispersionMetrics`: an integer `range` and
fifteen optional numeric metric fields.  The numeric type is a parameter so
the same shape serves the real-valued engine and the rational-valued
formatting model. -/
structure DispersionMetrics (α : Type) where
  range : Int
  sd_population : Option α
  vc_population : Option α
  juilland_d : Option α
  carroll_d2 : Option α
  roschengren_s_adj : Option α
  dp : Option α
  dp_norm : Option α
  kl_divergence : Option α
  jsd_dispersion : Option α
  hellinger_dispersion : Option α
  mean_text_frequency_ft : Option α
  pervasiveness_pt : Option α
  evenness_da : Option α
  ft_adjusted_by_pt : Option α
  ft_adjusted_by_da : Option α

/-- Mirror of the derived `Clone` implementation: a field-by-field copy. -/
def DispersionMetrics.clone {α : Type} (m : DispersionMetrics α) : DispersionMetrics α :=
  { range := m.range
    sd_population := m.sd_population
    vc_population := m.vc_population
    juilland_d := m.juilland_d
    carroll_d2 := m.carroll_d2
    roschengren_s_adj := m.roschengren_s_adj
    dp := m.dp
    dp_norm := m.dp_norm
    kl_divergence := m.kl_divergence
    jsd_dispersion := m.jsd_dispersion
    hellinger_dispersion := m.hellinger_dispersion
    mean_text_frequency_ft := m.mean_text_frequency_ft
    pervasiveness_pt := m.pervasiveness_pt
    evenness_da := m.evenness_da
    ft_adjusted_by_pt := m.ft_adjusted_by_pt
    ft_adjusted_by_da := m.ft_adjusted_by_da }

/-- Modelled from the spec: one corpus part is a `(frequency, size)` pair of
integers (§3 PartObservation, §6 input contract). -/
abbrev Part := Int × Int

/-- Modelled from the spec: input validity — every part has a non-negative
frequency and a positive size (§4.1, §7 caller errors). -/
def ValidInput (ps : List Part) : Prop := ∀ p ∈ ps, 0 ≤ p.1 ∧ 0 < p.2

instance (ps : List Part) : Decidable (ValidInput ps) :=
  List.decidableBAll _ ps

/-- Modelled from the spec: `total_frequency = Σ frequency_i` (§3 CorpusContext). -/
def totalFreq (ps : List Part) : Int := (ps.map Prod.fst).sum

/-- Modelled from the spec: `total_size = Σ size_i` (§3 CorpusContext). -/
def totalSize (ps : List Part) : Int := (ps.map Prod.snd).sum

/-- Modelled from the spec: `num_parts = count of parts with size > 0`
(§3 CorpusContext). -/
def numParts (ps : List Part) : Nat := ps.countP (fun p => decide (0 < p.2))

/-- Modelled from the spec: `range` = count of parts with `frequency > 0` (§4.1 item 1). -/
def rangeOf (ps : List Part) : Nat := ps.countP (fun p => decide (0 < p.1))

/-- Modelled from the spec: per-part relative frequency `frequency_i / size_i`. -/
def rel (p : Part) : ℚ := (p.1 : ℚ) / (p.2 : ℚ)

/-- Modelled from the spec: mean of the per-part relative frequencies. -/
def relMean (ps : List Part) : ℚ := (ps.map rel).sum / (numParts ps : ℚ)

/-- Modelled from the spec: population variance of the per-part relative
frequencies (§4.1 item 2). -/
def relVar (ps : List Part) : ℚ :=
  (ps.map (fun p => (rel p - relMean ps) ^ 2)).sum / (numParts ps : ℚ)

/-- Modelled from the spec: a part's share of the total frequency,
`p_i = frequency_i / total_frequency` (§4.1 item 4). -/
def pShare (ps : List Part) (p : Part) : ℚ := (p.1 : ℚ) / (totalFreq ps : ℚ)

/-- Modelled from the spec: a part's share of the total size,
`q_i = size_i / total_size` (§4.1 item 8). -/
def qShare (ps : List Part) (p : Part) : ℚ := (p.2 : ℚ) / (totalSize ps : ℚ)

/-- Modelled from the spec: `sd_population`, population standard deviation of
relative frequencies; for a single part SD = 0 is allowed, absent only when
there are no parts (§4.1 item 2). -/
noncomputable def sdPopulationOf (ps : List Part) : Option ℝ :=
  if numParts ps = 0 then none else some (Real.sqrt (relVar ps))

/-- Modelled from the spec: `vc_population = sd_population / mean`, absent when
there are no parts or the mean is 0 (§4.1 item 2). -/
noncomputable def vcPopulationOf (ps : List Part) : Option ℝ :=
  if numParts ps = 0 ∨ relMean ps = 0 then none
  else some (Real.sqrt (relVar ps) / (relMean ps : ℝ))

/-- Modelled from the spec: `juilland_d = 1 - vc / sqrt(num_parts - 1)`, absent
when `num_parts < 2` or `vc_population` is absent (§4.1 item 3). -/
noncomputable def juillandDOf (ps : List Part) : Option ℝ :=
  if numParts ps < 2 ∨ relMean ps = 0 then none
  else some (1 - (Real.sqrt (relVar ps) / (relMean ps : ℝ)) /
    Real.sqrt ((numParts ps : ℝ) - 1))

/-- Modelled from the spec: one Shannon entropy term `x * log2 x` with the
convention that the term is 0 when `x = 0` (§4.1 item 4). -/
noncomputable def entTerm (x : ℚ) : ℝ :=
  if x = 0 then 0 else (x : ℝ) * Real.logb 2 (x : ℝ)

/-- Modelled from the spec: `carroll_d2 = H(p) / log2(num_parts)`, absent when
`total_frequency == 0` or `num_parts < 2` (§4.1 item 4). -/
noncomputable def carrollD2Of (ps : List Part) : Option ℝ :=
  if totalFreq ps = 0 ∨ numParts ps < 2 then none
  else some ((-(ps.map (fun p => entTerm (pShare ps p))).sum) /
    Real.logb 2 (numParts ps : ℝ))

/-- Modelled from the spec: `roschengren_s_adj =
(Σ sqrt(frequency_i * size_i))^2 / (total_frequency * total_size)`, absent when
either total is 0 (§4.1 item 5). -/
noncomputable def roschengrenOf (ps : List Part) : Option ℝ :=
  if totalFreq ps = 0 ∨ totalSize ps = 0 then none
  else some (((ps.map (fun p => Real.sqrt ((p.1 : ℝ) * (p.2 : ℝ)))).sum) ^ 2 /
    ((totalFreq ps : ℝ) * (totalSize ps : ℝ)))

/-- Modelled from the spec: `dp = 0.5 * Σ |p_i - q_i|` (Gries' deviation of
proportions), as an exact rational (§4.1 item 6). -/
def dpVal (ps : List Part) : ℚ :=
  (1 / 2) * (ps.map (fun p => |pShare ps p - qShare ps p|)).sum

/-- Modelled from the spec: `dp`, absent when `total_frequency == 0` or
`total_size == 0` (§4.1 item 6). -/
def dpOf (ps : List Part) : Option ℝ :=
  if totalFreq ps = 0 ∨ totalSize ps = 0 then none else some ((dpVal ps : ℝ))

/-- Modelled from the spec: the smallest size share `min_i(size_i/total_size)`,
computed as a fold so it is defined for every input. -/
def minQShare (ps : List Part) : ℚ := (ps.map (qShare ps)).foldr min 1

/-- Modelled from the spec: `dp_norm = dp / (1 - min_i(size_i/total_size))`,
absent when `dp` is absent or the denominator is 0 (§4.1 item 7). -/
def dpNormOf (ps : List Part) : Option ℝ :=
  if totalFreq ps = 0 ∨ totalSize ps = 0 ∨ 1 - minQShare ps = 0 then none
  else some ((dpVal ps / (1 - minQShare ps) : ℚ) : ℝ)

/-- Modelled from the spec: one KL divergence term `p_i * log2(p_i / q_i)`,
summed only over parts with `p_i > 0` (§4.1 item 8). -/
noncomputable def klTerm (ps : List Part) (p : Part) : ℝ :=
  if p.1 ≤ 0 then 0
  else (pShare ps p : ℝ) * Real.logb 2 ((pShare ps p : ℝ) / (qShare ps p : ℝ))

/-- Modelled from the spec: `kl_divergence`, absent when `total_frequency == 0`
or when some part has `q_i == 0` while `p_i > 0` (the infinite case)
(§4.1 item 8). -/
noncomputable def klDivergenceOf (ps : List Part) : Option ℝ :=
  if totalFreq ps = 0 ∨ ∃ p ∈ ps, qShare ps p = 0 ∧ 0 < p.1 then none
  else some ((ps.map (klTerm ps)).sum)

/-- Modelled from the spec: one Jensen–Shannon divergence term, using the
midpoint distribution `m_i = (p_i + q_i)/2` and the `0 * log 0 = 0`
convention (§4.1 item 9). -/
noncomputable def jsdTerm (ps : List Part) (p : Part) : ℝ :=
  (if pShare ps p = 0 then 0
    else (pShare ps p : ℝ) *
      Real.logb 2 ((pShare ps p : ℝ) / (((pShare ps p + qShare ps p) / 2 : ℚ) : ℝ))) +
  (if qShare ps p = 0 then 0
    else (qShare ps p : ℝ) *
      Real.logb 2 ((qShare ps p : ℝ) / (((pShare ps p + qShare ps p) / 2 : ℚ) : ℝ)))

/-- Modelled from the spec: `jsd_dispersion`, defined whenever
`total_frequency > 0` and `total_size > 0` (§4.1 item 9). -/
noncomputable def jsdDispersionOf (ps : List Part) : Option ℝ :=
  if 0 < totalFreq ps ∧ 0 < totalSize ps then
    some ((1 / 2) * (ps.map (jsdTerm ps)).sum)
  else none

/-- Modelled from the spec: `hellinger_dispersion =
sqrt(0.5 * Σ (sqrt p_i - sqrt q_i)^2)`, same definedness condition as JSD
(§4.1 item 10). -/
noncomputable def hellingerOf (ps : List Part) : Option ℝ :=
  if 0 < totalFreq ps ∧ 0 < totalSize ps then
    some (Real.sqrt ((1 / 2) *
      (ps.map (fun p =>
        (Real.sqrt (pShare ps p : ℝ) - Real.sqrt (qShare ps p : ℝ)) ^ 2)).sum))
  else none

/-- Modelled from the spec: the fixed reference size used to normalize mean
text frequency (a per-million-tokens rate, §4.1 item 11). -/
def referenceSize : ℚ := 1000000

/-- Modelled from the spec: `mean_text_frequency_ft = mean_i(frequency_i /
size_i) * reference_size`, absent only when `num_parts == 0` (§4.1 item 11). -/
def meanTextFrequencyOf (ps : List Part) : Option ℝ :=
  if numParts ps = 0 then none else some ((relMean ps * referenceSize : ℚ) : ℝ)

/-- Modelled from the spec: `pervasiveness_pt = range / num_parts`, absent when
`num_parts == 0` (§4.1 item 12). -/
def pervasivenessOf (ps : List Part) : Option ℝ :=
  if numParts ps = 0 then none
  else some (((rangeOf ps : ℚ) / (numParts ps : ℚ) : ℚ) : ℝ)

/-- Modelled from the spec: the sum over all ordered pairs of parts of the
absolute pairwise differences of relative frequencies (§4.1 item 13). -/
def pairDiffSum (ps : List Part) : ℚ :=
  (ps.map (fun x => (ps.map (fun y => |rel x - rel y|)).sum)).sum

/-- Modelled from the spec: `evenness_da`, an evenness index derived from the
normalized pairwise differences of the per-part relative frequencies, absent
when `num_parts < 2` (§4.1 item 13; the exact formula is reconstructed, per
the spec's open question). -/
def evennessDaOf (ps : List Part) : Option ℝ :=
  if numParts ps < 2 then none
  else some (((1 - (pairDiffSum ps / ((numParts ps : ℚ) * ((numParts ps : ℚ) - 1))) /
    (2 * relMean ps) : ℚ) : ℝ))

/-- Modelled from the spec: `ft_adjusted_by_pt = mean_text_frequency_ft *
pervasiveness_pt`, absent exactly when either factor is absent (§4.1 item 14). -/
def ftAdjustedByPtOf (ps : List Part) : Option ℝ :=
  match meanTextFrequencyOf ps, pervasivenessOf ps with
  | some a, some b => some (a * b)
  | _, _ => none

/-- Modelled from the spec: `ft_adjusted_by_da = mean_text_frequency_ft *
evenness_da`, absent exactly when either factor is absent (§4.1 item 14). -/
noncomputable def ftAdjustedByDaOf (ps : List Part) : Option ℝ :=
  match meanTextFrequencyOf ps, evennessDaOf ps with
  | some a, some b => some (a * b)
  | _, _ => none

/-- Modelled from the spec: the full metrics record built from a validated
distribution, each field derived independently (§4.1). -/
noncomputable def metricsOf (ps : List Part) : DispersionMetrics ℝ :=
  { range := (rangeOf ps : Int)
    sd_population := sdPopulationOf ps
    vc_population := vcPopulationOf ps
    juilland_d := juillandDOf ps
    carroll_d2 := carrollD2Of ps
    roschengren_s_adj := roschengrenOf ps
    dp := dpOf ps
    dp_norm := dpNormOf ps
    kl_divergence := klDivergenceOf ps
    jsd_dispersion := jsdDispersionOf ps
    hellinger_dispersion := hellingerOf ps
    mean_text_frequency_ft := meanTextFrequencyOf ps
    pervasiveness_pt := pervasivenessOf ps
    evenness_da := evennessDaOf ps
    ft_adjusted_by_pt := ftAdjustedByPtOf ps
    ft_adjusted_by_da := ftAdjustedByDaOf ps }

/-- Modelled from the spec: the caller-error condition (§7). -/
inductive ComputeError where
  | invalidInput
  deriving DecidableEq

/-- Modelled from the spec: `compute(parts) -> DispersionMetrics`, failing with
`InvalidInput` on a negative frequency or non-positive size and otherwise
returning the full record (§4.1 contract, §7). -/
noncomputable def compute (ps : List Part) :
    Except ComputeError (DispersionMetrics ℝ) :=
  if ValidInput ps then .ok (metricsOf ps) else .error .invalidInput

/-- Last three decimal digits of a natural number, zero-padded to exactly
three characters: the fractional part of a fixed 3-decimal rendering. -/
def frac3 (n : Nat) : String :=
  String.mk [Nat.digitChar (n / 100 % 10), Nat.digitChar (n / 10 % 10),
    Nat.digitChar (n % 10)]

/-- Model of fixed 3-decimal float formatting (Rust `{:.3}` on an `f64`,
whose value is an exact rational): the value rounded to the nearest
thousandth, rendered with a sign, an integer part, a dot and exactly three
fractional digits. -/
def fmt3 (q : ℚ) : String :=
  (if q < 0 then "-" else "") ++
    toString ((round (|q| * 1000)).toNat / 1000) ++ "." ++
    frac3 (round (|q| * 1000)).toNat

/-- Model of Rust `{:.3?}` applied to an `Option<f64>`: `None` renders as the
literal string `None`, `Some(x)` renders the inner value with fixed 3-decimal
precision inside a `Some(...)` wrapper. -/
def fmtOpt3 : Option ℚ → String
  | none => "None"
  | some q => "Some(" ++ fmt3 q ++ ")"

/-- Mirror of `DispersionMetrics::__repr__`: renders the range and the two
headline indices (Juilland's D, Carroll's D2), eliding the remaining fields. -/
def reprMetrics (m : DispersionMetrics ℚ) : String :=
  "DispersionMetrics(range=" ++ toString m.range ++ ", juilland_d=" ++
    fmtOpt3 m.juilland_d ++ ", carroll_d2=" ++ fmtOpt3 m.carroll_d2 ++ ", ...)"

/-- Absence policy of the engine (§3, §4.1): each optional field of the result
is `none` exactly under its formula's undefinedness condition; absence is the
`Option.none` constructor, never a sentinel numeric value, so an absent metric
is distinguishable from a computed zero. -/
def AbsenceSpec (ps : List Part) : Prop :=
  ((metricsOf ps).sd_population = none ↔ numParts ps = 0) ∧
  ((metricsOf ps).vc_population = none ↔ numParts ps = 0 ∨ relMean ps = 0) ∧
  ((metricsOf ps).juilland_d = none ↔ numParts ps < 2 ∨ relMean ps = 0) ∧
  ((metricsOf ps).carroll_d2 = none ↔ totalFreq ps = 0 ∨ numParts ps < 2) ∧
  ((metricsOf ps).roschengren_s_adj = none ↔ totalFreq ps = 0 ∨ totalSize ps = 0) ∧
  ((metricsOf ps).dp = none ↔ totalFreq ps = 0 ∨ totalSize ps = 0) ∧
  ((metricsOf ps).dp_norm = none ↔
    totalFreq ps = 0 ∨ totalSize ps = 0 ∨ 1 - minQShare ps = 0) ∧
  ((metricsOf ps).kl_divergence = none ↔
    totalFreq ps = 0 ∨ ∃ p ∈ ps, qShare ps p = 0 ∧ 0 < p.1) ∧
  ((metricsOf ps).jsd_dispersion = none ↔ ¬(0 < totalFreq ps ∧ 0 < totalSize ps)) ∧
  ((metricsOf ps).hellinger_dispersion = none ↔ ¬(0 < totalFreq ps ∧ 0 < totalSize ps)) ∧
  ((metricsOf ps).mean_text_frequency_ft = none ↔ numParts ps = 0) ∧
  ((metricsOf ps).pervasiveness_pt = none ↔ numParts ps = 0) ∧
  ((metricsOf ps).evenness_da = none ↔ numParts ps < 2) ∧
  ((metricsOf ps).ft_adjusted_by_pt = none ↔
    ((metricsOf ps).mean_text_frequency_ft = none ∨
      (metricsOf ps).pervasiveness_pt = none)) ∧
  ((metricsOf ps).ft_adjusted_by_da = none ↔
    ((metricsOf ps).mean_text_frequency_ft = none ∨
      (metricsOf ps).evenness_da = none))

/-- The metric fields the spec lists as order-independent (§8): every field
except `dp_norm`, `mean_text_frequency_ft`, `pervasiveness_pt` and the two
adjusted frequencies, extracted as a tuple (absence included, via `Option`). -/
def listedFields (m : DispersionMetrics ℝ) :
    Int × Option ℝ × Option ℝ × Option ℝ × Option ℝ × Option ℝ × Option ℝ ×
      Option ℝ × Option ℝ × Option ℝ × Option ℝ :=
  (m.range, m.sd_population, m.vc_population, m.juilland_d, m.carroll_d2,
    m.roschengren_s_adj, m.dp, m.kl_divergence, m.jsd_dispersion,
    m.hellinger_dispersion, m.evenness_da)

end CorpusDispersion

namespace CorpusDispersion

/-- Helper: field projections of `metricsOf` (definitional). -/
theorem metricsOf_range (ps : List Part) : (metricsOf ps).range = (rangeOf ps : Int) := rfl

theorem metricsOf_sd (ps : List Part) :
    (metricsOf ps).sd_population = sdPopulationOf ps := rfl

theorem metricsOf_vc (ps : List Part) :
    (metricsOf ps).vc_population = vcPopulationOf ps := rfl

theorem metricsOf_juilland (ps : List Part) :
    (metricsOf ps).juilland_d = juillandDOf ps := rfl

theorem metricsOf_carroll (ps : List Part) :
    (metricsOf ps).carroll_d2 = carrollD2Of ps := rfl

theorem metricsOf_roschengren (ps : List Part) :
    (metricsOf ps).roschengren_s_adj = roschengrenOf ps := rfl

theorem metricsOf_dp (ps : List Part) : (metricsOf ps).dp = dpOf ps := rfl

theorem metricsOf_dpNorm (ps : List Part) : (metricsOf ps).dp_norm = dpNormOf ps := rfl

theorem metricsOf_kl (ps : List Part) :
    (metricsOf ps).kl_divergence = klDivergenceOf ps := rfl

theorem metricsOf_jsd (ps : List Part) :
    (metricsOf ps).jsd_dispersion = jsdDispersionOf ps := rfl

theorem metricsOf_hellinger (ps : List Part) :
    (metricsOf ps).hellinger_dispersion = hellingerOf ps := rfl

theorem metricsOf_meanFt (ps : List Part) :
    (metricsOf ps).mean_text_frequency_ft = meanTextFrequencyOf ps := rfl

theorem metricsOf_pt (ps : List Part) :
    (metricsOf ps).pervasiveness_pt = pervasivenessOf ps := rfl

theorem metricsOf_da (ps : List Part) :
    (metricsOf ps).evenness_da = evennessDaOf ps := rfl

theorem metricsOf_ftPt (ps : List Part) :
    (metricsOf ps).ft_adjusted_by_pt = ftAdjustedByPtOf ps := rfl

theorem metricsOf_ftDa (ps : List Part) :
    (metricsOf ps).ft_adjusted_by_da = ftAdjustedByDaOf ps := rfl

/-- Helper: for a valid input, the total frequency is zero exactly when every
part's frequency is zero. -/
theorem totalFreq_eq_zero_iff {ps : List Part} (h : ValidInput ps) :
    totalFreq ps = 0 ↔ ∀ p ∈ ps, p.1 = 0 := by
  induction ps with
  | nil => simp [totalFreq]
  | cons a l ih =>
    have ha := h a (List.mem_cons_self a l)
    have hl : ValidInput l := fun p hp => h p (List.mem_cons_of_mem _ hp)
    have hsum : 0 ≤ (l.map Prod.fst).sum :=
      List.sum_nonneg (by
        intro x hx
        obtain ⟨p, hp, rfl⟩ := List.mem_map.mp hx
        exact (hl p hp).1)
    have hiff := ih hl
    constructor
    · intro h0
      have hx : a.1 + (l.map Prod.fst).sum = 0 := by
        simpa [totalFreq] using h0
      have ha0 : a.1 = 0 := by omega
      have hs0 : (l.map Prod.fst).sum = 0 := by omega
      intro p hp
      rcases List.mem_cons.mp hp with rfl | hp
      · exact ha0
      · exact hiff.mp (by simpa [totalFreq] using hs0) p hp
    · intro hall
      have ha0 : a.1 = 0 := hall a (List.mem_cons_self a l)
      have hs0 : totalFreq l = 0 :=
        hiff.mpr fun p hp => hall p (List.mem_cons_of_mem _ hp)
      have hs0' : (l.map Prod.fst).sum = 0 := by simpa [totalFreq] using hs0
      simp [totalFreq, ha0, hs0']

/-- Helper: for a valid input, `num_parts` equals the number of parts. -/
theorem numParts_eq_length {ps : List Part} (h : ValidInput ps) :
    numParts ps = ps.length := by
  unfold numParts
  rw [List.countP_eq_length]
  intro p hp
  exact decide_eq_true (h p hp).2

/-- C1: for every valid input, each optional metric field of the result is
absent exactly under its formula's undefinedness condition (§4.1), and
absence is the explicit `Option.none` constructor — the optional fields carry
no sentinel numeric stand-in for absence. -/
theorem claim_C1_absence_policy (ps : List Part) (h : ValidInput ps) :
    AbsenceSpec ps := by
  clear h
  unfold AbsenceSpec
  refine ⟨?_, ?_, ?_, ?_, ?_, ?_, ?_, ?_, ?_, ?_, ?_, ?_, ?_, ?_, ?_⟩
  · rw [metricsOf_sd]; unfold sdPopulationOf; split <;> simp_all
  · rw [metricsOf_vc]; unfold vcPopulationOf; split <;> simp_all
  · rw [metricsOf_juilland]; unfold juillandDOf; split <;> simp_all
  · rw [metricsOf_carroll]; unfold carrollD2Of; split <;> simp_all
  · rw [metricsOf_roschengren]; unfold roschengrenOf; split <;> simp_all
  · rw [metricsOf_dp]; unfold dpOf; split <;> simp_all
  · rw [metricsOf_dpNorm]; unfold dpNormOf; split <;> simp_all
  · rw [metricsOf_kl]; unfold klDivergenceOf; split <;> rename_i hc
    · exact iff_of_true rfl hc
    · exact iff_of_false (by simp) hc
  · rw [metricsOf_jsd]; unfold jsdDispersionOf; split <;> simp_all
  · rw [metricsOf_hellinger]; unfold hellingerOf; split <;> simp_all
  · rw [metricsOf_meanFt]; unfold meanTextFrequencyOf; split <;> simp_all
  · rw [metricsOf_pt]; unfold pervasivenessOf; split <;> simp_all
  · rw [metricsOf_da]; unfold evennessDaOf; split <;> simp_all
  · rw [metricsOf_ftPt, metricsOf_meanFt, metricsOf_pt]
    unfold ftAdjustedByPtOf
    rcases hm : meanTextFrequencyOf ps with _ | a <;>
      rcases hq : pervasivenessOf ps with _ | b <;> simp [hm, hq]
  · rw [metricsOf_ftDa, metricsOf_meanFt, metricsOf_da]
    unfold ftAdjustedByDaOf
    rcases hm : meanTextFrequencyOf ps with _ | a <;>
      rcases hq : evennessDaOf ps with _ | b <;> simp [hm, hq]

/-- Witness for C1 at the empty input. -/
theorem claim_C1_absence_policy_witness :
    ValidInput ([] : List Part) ∧ AbsenceSpec ([] : List Part) :=
  ⟨by decide, claim_C1_absence_policy [] (by decide)⟩

/-- C7: for every valid input with positive total frequency, `kl_divergence`
is absent exactly when some part has a zero size share with a positive
observed frequency (never the case for valid inputs, whose sizes are all
positive); it is absent when the total frequency is zero; and on the
concentrated scenario `[(20,100),(0,100),(0,100),(0,100)]` — where some parts
have zero observed share but positive size share — it is present (a finite
real value). -/
theorem claim_C7_kl_divergence (ps : List Part) (h : ValidInput ps) :
    ((0 < totalFreq ps →
        ((metricsOf ps).kl_divergence = none ↔
          ∃ p ∈ ps, qShare ps p = 0 ∧ 0 < p.1)) ∧
      (totalFreq ps = 0 → (metricsOf ps).kl_divergence = none)) ∧
    (metricsOf [((20 : Int), (100 : Int)), ((0 : Int), (100 : Int)),
      ((0 : Int), (100 : Int)), ((0 : Int), (100 : Int))]).kl_divergence ≠ none := by
  clear h
  refine ⟨⟨?_, ?_⟩, ?_⟩
  · intro hF
    rw [metricsOf_kl]; unfold klDivergenceOf
    split <;> rename_i hc
    · exact iff_of_true rfl (hc.resolve_left (by omega))
    · have hne : ¬ ∃ p ∈ ps, qShare ps p = 0 ∧ 0 < p.1 :=
        fun hex => hc (Or.inr hex)
      simp [hne]
  · intro hF
    rw [metricsOf_kl]; unfold klDivergenceOf
    rw [if_pos (Or.inl hF)]
  · rw [metricsOf_kl]; unfold klDivergenceOf
    have hc : ¬ (totalFreq [((20 : Int), (100 : Int)), ((0 : Int), (100 : Int)),
        ((0 : Int), (100 : Int)), ((0 : Int), (100 : Int))] = 0 ∨
        ∃ p ∈ [((20 : Int), (100 : Int)), ((0 : Int), (100 : Int)),
          ((0 : Int), (100 : Int)), ((0 : Int), (100 : Int))],
          qShare [((20 : Int), (100 : Int)), ((0 : Int), (100 : Int)),
            ((0 : Int), (100 : Int)), ((0 : Int), (100 : Int))] p = 0 ∧ 0 < p.1) := by
      simp [totalFreq, totalSize, qShare]
    rw [if_neg hc]
    simp

/-- Witness for C7 at the concentrated scenario input. -/
theorem claim_C7_kl_divergence_witness :
    ValidInput [((20 : Int), (100 : Int)), ((0 : Int), (100 : Int)),
      ((0 : Int), (100 : Int)), ((0 : Int), (100 : Int))] ∧
    (((0 < totalFreq [((20 : Int), (100 : Int)), ((0 : Int), (100 : Int)),
          ((0 : Int), (100 : Int)), ((0 : Int), (100 : Int))] →
        ((metricsOf [((20 : Int), (100 : Int)), ((0 : Int), (100 : Int)),
            ((0 : Int), (100 : Int)), ((0 : Int), (100 : Int))]).kl_divergence = none ↔
          ∃ p ∈ [((20 : Int), (100 : Int)), ((0 : Int), (100 : Int)),
            ((0 : Int), (100 : Int)), ((0 : Int), (100 : Int))],
            qShare [((20 : Int), (100 : Int)), ((0 : Int), (100 : Int)),
              ((0 : Int), (100 : Int)), ((0 : Int), (100 : Int))] p = 0 ∧ 0 < p.1)) ∧
      (totalFreq [((20 : Int), (100 : Int)), ((0 : Int), (100 : Int)),
          ((0 : Int), (100 : Int)), ((0 : Int), (100 : Int))] = 0 →
        (metricsOf [((20 : Int), (100 : Int)), ((0 : Int), (100 : Int)),
          ((0 : Int), (100 : Int)), ((0 : Int), (100 : Int))]).kl_divergence = none)) ∧
    (metricsOf [((20 : Int), (100 : Int)), ((0 : Int), (100 : Int)),
      ((0 : Int), (100 : Int)), ((0 : Int), (100 : Int))]).kl_divergence ≠ none) :=
  ⟨by decide, claim_C7_kl_divergence [((20 : Int), (100 : Int)), ((0 : Int), (100 : Int)),
    ((0 : Int), (100 : Int)), ((0 : Int), (100 : Int))] (by decide)⟩

/-- C4: an input with a negative frequency or a non-positive size makes
`compute` fail synchronously with `InvalidInput`, producing no (partial)
result. -/
theorem claim_C4_invalid_input (ps : List Part)
    (h : ∃ p ∈ ps, p.1 < 0 ∨ p.2 ≤ 0) :
    compute ps = .error ComputeError.invalidInput := by
  have hnv : ¬ ValidInput ps := by
    intro hv
    obtain ⟨p, hp, hbad⟩ := h
    rcases hv p hp with ⟨h1, h2⟩
    rcases hbad with h3 | h3 <;> omega
  simp [compute, hnv]

/-- Witness for C4 at the spec's scenario `compute([(-1, 100)])`. -/
theorem claim_C4_invalid_input_witness :
    (∃ p ∈ [((-1 : Int), (100 : Int))], p.1 < 0 ∨ p.2 ≤ 0) ∧
    compute [((-1 : Int), (100 : Int))] = .error ComputeError.invalidInput :=
  ⟨by decide, claim_C4_invalid_input [((-1 : Int), (100 : Int))] (by decide)⟩

/-- C5: computing on the empty sequence of parts succeeds with `range = 0` and
every one of the fifteen optional fields absent. -/
theorem claim_C5_empty_corpus :
    compute ([] : List Part) = .ok
      ⟨0, none, none, none, none, none, none, none, none, none, none, none,
        none, none, none, none⟩ := rfl

/-- C2: for every valid input the computation succeeds, and the result's
`range` field — a plain (non-optional, hence always present) integer — equals
the count of parts whose frequency is strictly positive. -/
theorem claim_C2_range_count (ps : List Part) (h : ValidInput ps) :
    compute ps = .ok (metricsOf ps) ∧
    (metricsOf ps).range = ((ps.countP fun p => decide (0 < p.1) : Nat) : Int) :=
  ⟨by simp [compute, h], rfl⟩

/-- Witness for C2 on a small concrete corpus. -/
theorem claim_C2_range_count_witness :
    ValidInput [((2 : Int), (5 : Int)), ((0 : Int), (3 : Int))] ∧
    (compute [((2 : Int), (5 : Int)), ((0 : Int), (3 : Int))] =
        .ok (metricsOf [((2 : Int), (5 : Int)), ((0 : Int), (3 : Int))]) ∧
      (metricsOf [((2 : Int), (5 : Int)), ((0 : Int), (3 : Int))]).range =
        (([((2 : Int), (5 : Int)), ((0 : Int), (3 : Int))].countP
          fun p => decide (0 < p.1) : Nat) : Int)) :=
  ⟨by decide, claim_C2_range_count [((2 : Int), (5 : Int)), ((0 : Int), (3 : Int))] (by decide)⟩

/-- C6: for every valid input, `0 ≤ range ≤ num_parts`, and `range = 0` holds
exactly when `total_frequency = 0`. -/
theorem claim_C6_range_bounds (ps : List Part) (h : ValidInput ps) :
    0 ≤ (metricsOf ps).range ∧
    (metricsOf ps).range ≤ (numParts ps : Int) ∧
    ((metricsOf ps).range = 0 ↔ totalFreq ps = 0) := by
  have hr : (metricsOf ps).range = (rangeOf ps : Int) := rfl
  refine ⟨by simp [hr], ?_, ?_⟩
  · rw [hr, numParts_eq_length h]
    unfold rangeOf
    exact_mod_cast List.countP_le_length _
  · rw [hr]
    have : rangeOf ps = 0 ↔ ∀ p ∈ ps, ¬ (0 < p.1) := by
      simp [rangeOf, List.countP_eq_zero]
    rw [show ((rangeOf ps : Int) = 0 ↔ rangeOf ps = 0) by exact_mod_cast Iff.rfl]
    rw [this, totalFreq_eq_zero_iff h]
    constructor
    · intro hall p hp
      have := (h p hp).1
      have := hall p hp
      omega
    · intro hall p hp
      have := hall p hp
      omega

/-- Witness for C6 on a small concrete corpus. -/
theorem claim_C6_range_bounds_witness :
    ValidInput [((3 : Int), (10 : Int)), ((0 : Int), (7 : Int))] ∧
    (0 ≤ (metricsOf [((3 : Int), (10 : Int)), ((0 : Int), (7 : Int))]).range ∧
      (metricsOf [((3 : Int), (10 : Int)), ((0 : Int), (7 : Int))]).range ≤
        (numParts [((3 : Int), (10 : Int)), ((0 : Int), (7 : Int))] : Int) ∧
      ((metricsOf [((3 : Int), (10 : Int)), ((0 : Int), (7 : Int))]).range = 0 ↔
        totalFreq [((3 : Int), (10 : Int)), ((0 : Int), (7 : Int))] = 0)) :=
  ⟨by decide, claim_C6_range_bounds [((3 : Int), (10 : Int)), ((0 : Int), (7 : Int))] (by decide)⟩

section Permutation

variable {ps ps' : List Part}

/-- Helper: total frequency is invariant under permutation of the parts. -/
theorem totalFreq_perm (h : ps.Perm ps') : totalFreq ps = totalFreq ps' :=
  (h.map Prod.fst).sum_eq

/-- Helper: total size is invariant under permutation of the parts. -/
theorem totalSize_perm (h : ps.Perm ps') : totalSize ps = totalSize ps' :=
  (h.map Prod.snd).sum_eq

/-- Helper: the part count is invariant under permutation. -/
theorem numParts_perm (h : ps.Perm ps') : numParts ps = numParts ps' :=
  h.countP_eq _

/-- Helper: the range count is invariant under permutation. -/
theorem rangeOf_perm (h : ps.Perm ps') : rangeOf ps = rangeOf ps' :=
  h.countP_eq _

/-- Helper: the mean relative frequency is invariant under permutation. -/
theorem relMean_perm (h : ps.Perm ps') : relMean ps = relMean ps' := by
  unfold relMean
  rw [(h.map rel).sum_eq, numParts_perm h]

/-- Helper: the population variance is invariant under permutation. -/
theorem relVar_perm (h : ps.Perm ps') : relVar ps = relVar ps' := by
  unfold relVar
  rw [relMean_perm h, numParts_perm h,
    (h.map (fun p => (rel p - relMean ps') ^ 2)).sum_eq]

theorem sdPopulationOf_perm (h : ps.Perm ps') :
    sdPopulationOf ps = sdPopulationOf ps' := by
  unfold sdPopulationOf
  rw [numParts_perm h, relVar_perm h]

theorem vcPopulationOf_perm (h : ps.Perm ps') :
    vcPopulationOf ps = vcPopulationOf ps' := by
  unfold vcPopulationOf
  rw [numParts_perm h, relVar_perm h, relMean_perm h]

theorem juillandDOf_perm (h : ps.Perm ps') : juillandDOf ps = juillandDOf ps' := by
  unfold juillandDOf
  rw [numParts_perm h, relVar_perm h, relMean_perm h]

/-- Helper: the observed-share function depends on the input only through the
total frequency. -/
theorem pShare_fun_perm (h : ps.Perm ps') : pShare ps = pShare ps' :=
  funext fun p => by unfold pShare; rw [totalFreq_perm h]

/-- Helper: the size-share function depends on the input only through the
total size. -/
theorem qShare_fun_perm (h : ps.Perm ps') : qShare ps = qShare ps' :=
  funext fun p => by unfold qShare; rw [totalSize_perm h]

theorem carrollD2Of_perm (h : ps.Perm ps') : carrollD2Of ps = carrollD2Of ps' := by
  unfold carrollD2Of
  simp only [pShare_fun_perm h]
  rw [totalFreq_perm h, numParts_perm h, (h.map _).sum_eq]

theorem roschengrenOf_perm (h : ps.Perm ps') :
    roschengrenOf ps = roschengrenOf ps' := by
  unfold roschengrenOf
  rw [totalFreq_perm h, totalSize_perm h,
    (h.map (fun p => Real.sqrt ((p.1 : ℝ) * (p.2 : ℝ)))).sum_eq]

theorem dpVal_perm (h : ps.Perm ps') : dpVal ps = dpVal ps' := by
  unfold dpVal
  simp only [pShare_fun_perm h, qShare_fun_perm h]
  rw [(h.map _).sum_eq]

theorem dpOf_perm (h : ps.Perm ps') : dpOf ps = dpOf ps' := by
  unfold dpOf
  rw [totalFreq_perm h, totalSize_perm h, dpVal_perm h]

/-- Helper: the minimum size share is invariant under permutation (`min` is a
left-commutative fold operation). -/
theorem minQShare_perm (h : ps.Perm ps') : minQShare ps = minQShare ps' := by
  haveI : LeftCommutative (min : ℚ → ℚ → ℚ) := min_left_commutative
  unfold minQShare
  rw [qShare_fun_perm h]
  exact (h.map _).foldr_eq 1

theorem dpNormOf_perm (h : ps.Perm ps') : dpNormOf ps = dpNormOf ps' := by
  unfold dpNormOf
  rw [totalFreq_perm h, totalSize_perm h, dpVal_perm h, minQShare_perm h]

/-- Helper: the per-part KL term depends on the input only through the totals. -/
theorem klTerm_perm (h : ps.Perm ps') : klTerm ps = klTerm ps' := by
  funext p
  unfold klTerm pShare qShare
  rw [totalFreq_perm h, totalSize_perm h]

theorem klDivergenceOf_perm (h : ps.Perm ps') :
    klDivergenceOf ps = klDivergenceOf ps' := by
  unfold klDivergenceOf
  rw [klTerm_perm h]
  have hq : ∀ p : Part, qShare ps p = qShare ps' p := fun p =>
    congrFun (qShare_fun_perm h) p
  refine if_congr (or_congr (by rw [totalFreq_perm h]) ?_) rfl
    (congrArg some ((h.map _).sum_eq))
  constructor
  · rintro ⟨p, hp, hc1, hc2⟩
    exact ⟨p, h.mem_iff.mp hp, by rw [← hq p]; exact hc1, hc2⟩
  · rintro ⟨p, hp, hc1, hc2⟩
    exact ⟨p, h.mem_iff.mpr hp, by rw [hq p]; exact hc1, hc2⟩

/-- Helper: the per-part JSD term depends on the input only through the totals. -/
theorem jsdTerm_perm (h : ps.Perm ps') : jsdTerm ps = jsdTerm ps' := by
  funext p
  unfold jsdTerm pShare qShare
  rw [totalFreq_perm h, totalSize_perm h]

theorem jsdDispersionOf_perm (h : ps.Perm ps') :
    jsdDispersionOf ps = jsdDispersionOf ps' := by
  unfold jsdDispersionOf
  rw [totalFreq_perm h, totalSize_perm h, jsdTerm_perm h, (h.map _).sum_eq]

theorem hellingerOf_perm (h : ps.Perm ps') : hellingerOf ps = hellingerOf ps' := by
  unfold hellingerOf
  simp only [pShare_fun_perm h, qShare_fun_perm h]
  rw [totalFreq_perm h, totalSize_perm h, (h.map _).sum_eq]

/-- Helper: the pairwise-difference double sum is invariant under permutation. -/
theorem pairDiffSum_perm (h : ps.Perm ps') : pairDiffSum ps = pairDiffSum ps' := by
  unfold pairDiffSum
  have inner : ∀ x : Part,
      (ps.map (fun y => |rel x - rel y|)).sum =
        (ps'.map (fun y => |rel x - rel y|)).sum :=
    fun x => (h.map _).sum_eq
  calc (ps.map (fun x => (ps.map (fun y => |rel x - rel y|)).sum)).sum
      = (ps.map (fun x => (ps'.map (fun y => |rel x - rel y|)).sum)).sum :=
        congrArg List.sum (List.map_congr_left (fun a _ => inner a))
    _ = (ps'.map (fun x => (ps'.map (fun y => |rel x - rel y|)).sum)).sum :=
        (h.map _).sum_eq

theorem evennessDaOf_perm (h : ps.Perm ps') : evennessDaOf ps = evennessDaOf ps' := by
  unfold evennessDaOf
  rw [numParts_perm h, pairDiffSum_perm h, relMean_perm h]

theorem meanTextFrequencyOf_perm (h : ps.Perm ps') :
    meanTextFrequencyOf ps = meanTextFrequencyOf ps' := by
  unfold meanTextFrequencyOf
  rw [numParts_perm h, relMean_perm h]

theorem pervasivenessOf_perm (h : ps.Perm ps') :
    pervasivenessOf ps = pervasivenessOf ps' := by
  unfold pervasivenessOf
  rw [numParts_perm h, rangeOf_perm h]

theorem ftAdjustedByPtOf_perm (h : ps.Perm ps') :
    ftAdjustedByPtOf ps = ftAdjustedByPtOf ps' := by
  unfold ftAdjustedByPtOf
  rw [meanTextFrequencyOf_perm h, pervasivenessOf_perm h]

theorem ftAdjustedByDaOf_perm (h : ps.Perm ps') :
    ftAdjustedByDaOf ps = ftAdjustedByDaOf ps' := by
  unfold ftAdjustedByDaOf
  rw [meanTextFrequencyOf_perm h, evennessDaOf_perm h]

/-- Helper: the whole metrics record is invariant under permutation. -/
theorem metricsOf_perm (h : ps.Perm ps') : metricsOf ps = metricsOf ps' := by
  unfold metricsOf
  rw [rangeOf_perm h, sdPopulationOf_perm h, vcPopulationOf_perm h,
    juillandDOf_perm h, carrollD2Of_perm h, roschengrenOf_perm h, dpOf_perm h,
    dpNormOf_perm h, klDivergenceOf_perm h, jsdDispersionOf_perm h,
    hellingerOf_perm h, meanTextFrequencyOf_perm h, pervasivenessOf_perm h,
    evennessDaOf_perm h, ftAdjustedByPtOf_perm h, ftAdjustedByDaOf_perm h]

/-- Helper: validity is invariant under permutation. -/
theorem validInput_perm (h : ps.Perm ps') : ValidInput ps ↔ ValidInput ps' :=
  ⟨fun hv p hp => hv p (h.mem_iff.mpr hp), fun hv p hp => hv p (h.mem_iff.mp hp)⟩

/-- Helper: `compute` is invariant under permutation of its input. -/
theorem compute_perm (h : ps.Perm ps') : compute ps = compute ps' := by
  unfold compute
  exact if_congr (validInput_perm h) (congrArg Except.ok (metricsOf_perm h)) rfl

end Permutation

/-- C9: the metrics the spec lists as order-independent — `range`,
`sd_population`, `vc_population`, `juilland_d`, `carroll_d2`,
`roschengren_s_adj`, `dp`, `kl_divergence`, `jsd_dispersion`,
`hellinger_dispersion`, `evenness_da` — computed on any permutation of the
input equal those computed on the original input, including which of them
are absent. -/
theorem claim_C9_order_independence (ps ps' : List Part) (h : ps.Perm ps') :
    Except.map listedFields (compute ps) = Except.map listedFields (compute ps') := by
  rw [compute_perm h]

/-- Witness for C9 at a concrete transposition of a two-part corpus. -/
theorem claim_C9_order_independence_witness :
    List.Perm [((1 : Int), (2 : Int)), ((3 : Int), (4 : Int))]
      [((3 : Int), (4 : Int)), ((1 : Int), (2 : Int))] ∧
    Except.map listedFields (compute [((1 : Int), (2 : Int)), ((3 : Int), (4 : Int))]) =
      Except.map listedFields (compute [((3 : Int), (4 : Int)), ((1 : Int), (2 : Int))]) :=
  ⟨List.Perm.swap ((3 : Int), (4 : Int)) ((1 : Int), (2 : Int)) [],
    claim_C9_order_independence _ _
      (List.Perm.swap ((3 : Int), (4 : Int)) ((1 : Int), (2 : Int)) [])⟩

/-- C10: cloning a `DispersionMetrics` value yields a new value whose sixteen
fields are each equal to the corresponding field of the original (so the
original, an immutable value, is unchanged by the copy). -/
theorem claim_C10_clone_fields (m : DispersionMetrics ℝ) :
    m.clone.range = m.range ∧
    m.clone.sd_population = m.sd_population ∧
    m.clone.vc_population = m.vc_population ∧
    m.clone.juilland_d = m.juilland_d ∧
    m.clone.carroll_d2 = m.carroll_d2 ∧
    m.clone.roschengren_s_adj = m.roschengren_s_adj ∧
    m.clone.dp = m.dp ∧
    m.clone.dp_norm = m.dp_norm ∧
    m.clone.kl_divergence = m.kl_divergence ∧
    m.clone.jsd_dispersion = m.jsd_dispersion ∧
    m.clone.hellinger_dispersion = m.hellinger_dispersion ∧
    m.clone.mean_text_frequency_ft = m.mean_text_frequency_ft ∧
    m.clone.pervasiveness_pt = m.pervasiveness_pt ∧
    m.clone.evenness_da = m.evenness_da ∧
    m.clone.ft_adjusted_by_pt = m.ft_adjusted_by_pt ∧
    m.clone.ft_adjusted_by_da = m.ft_adjusted_by_da :=
  ⟨rfl, rfl, rfl, rfl, rfl, rfl, rfl, rfl, rfl, rfl, rfl, rfl, rfl, rfl, rfl, rfl⟩

/-- C3: the human-readable summary form renders the part count (`range`) and
the two headline indices (Juilland's D, Carroll's D2); a present index is
rendered with exactly three digits after the decimal point, while an absent
index is rendered as the distinct marker `None` — never as `0.000`, and never
equal to the rendering of any present value (in particular a present zero
renders as `Some(0.000)`). -/
theorem claim_C3_repr_rendering (m : DispersionMetrics ℚ) :
    reprMetrics m = "DispersionMetrics(range=" ++ toString m.range ++
        ", juilland_d=" ++ fmtOpt3 m.juilland_d ++ ", carroll_d2=" ++
        fmtOpt3 m.carroll_d2 ++ ", ...)" ∧
    fmtOpt3 none = "None" ∧
    (∀ q : ℚ, fmtOpt3 (some q) =
        "Some(" ++ ((if q < 0 then "-" else "") ++
          toString ((round (|q| * 1000)).toNat / 1000)) ++ "." ++
          frac3 (round (|q| * 1000)).toNat ++ ")" ∧
      (frac3 (round (|q| * 1000)).toNat).length = 3) ∧
    (∀ q : ℚ, fmtOpt3 (some q) ≠ fmtOpt3 none) ∧
    fmtOpt3 (some 0) = "Some(0.000)" ∧
    fmtOpt3 none ≠ "0.000" := by
  refine ⟨rfl, rfl, fun q => ⟨?_, rfl⟩, fun q h => ?_, ?_, by decide⟩
  · simp [fmtOpt3, fmt3, String.append_assoc]
  · have hlen := congrArg String.length h
    simp only [fmtOpt3, fmt3, String.length_append] at hlen
    have e1 : ("Some(" : String).length = 5 := rfl
    have e2 : ("." : String).length = 1 := rfl
    have e3 : (")" : String).length = 1 := rfl
    have e4 : (frac3 (round (|q| * 1000)).toNat).length = 3 := rfl
    have e5 : ("None" : String).length = 4 := rfl
    omega
  · have h : round (|(0 : ℚ)| * 1000) = 0 := by simp
    simp only [fmtOpt3, fmt3, h]
    norm_num
    rfl

/-- C8: `compute` is deterministic — it is a pure function of its input, and
any two calls on the same input that return results agree on every one of the
sixteen fields, including which optional fields are absent. -/
theorem claim_C8_deterministic (ps : List Part) (m₁ m₂ : DispersionMetrics ℝ)
    (h₁ : compute ps = .ok m₁) (h₂ : compute ps = .ok m₂) :
    m₁.range = m₂.range ∧
    m₁.sd_population = m₂.sd_population ∧
    m₁.vc_population = m₂.vc_population ∧
    m₁.juilland_d = m₂.juilland_d ∧
    m₁.carroll_d2 = m₂.carroll_d2 ∧
    m₁.roschengren_s_adj = m₂.roschengren_s_adj ∧
    m₁.dp = m₂.dp ∧
    m₁.dp_norm = m₂.dp_norm ∧
    m₁.kl_divergence = m₂.kl_divergence ∧
    m₁.jsd_dispersion = m₂.jsd_dispersion ∧
    m₁.hellinger_dispersion = m₂.hellinger_dispersion ∧
    m₁.mean_text_frequency_ft = m₂.mean_text_frequency_ft ∧
    m₁.pervasiveness_pt = m₂.pervasiveness_pt ∧
    m₁.evenness_da = m₂.evenness_da ∧
    m₁.ft_adjusted_by_pt = m₂.ft_adjusted_by_pt ∧
    m₁.ft_adjusted_by_da = m₂.ft_adjusted_by_da := by
  rw [h₁] at h₂
  cases h₂
  exact ⟨rfl, rfl, rfl, rfl, rfl, rfl, rfl, rfl, rfl, rfl, rfl, rfl, rfl, rfl, rfl, rfl⟩

/-- Witness for C8 at the empty input, whose computation succeeds. -/
theorem claim_C8_deterministic_witness :
    (metricsOf []).range = (metricsOf []).range ∧
    (metricsOf []).sd_population = (metricsOf []).sd_population ∧
    (metricsOf []).vc_population = (metricsOf []).vc_population ∧
    (metricsOf []).juilland_d = (metricsOf []).juilland_d ∧
    (metricsOf []).carroll_d2 = (metricsOf []).carroll_d2 ∧
    (metricsOf []).roschengren_s_adj = (metricsOf []).roschengren_s_adj ∧
    (metricsOf []).dp = (metricsOf []).dp ∧
    (metricsOf []).dp_norm = (metricsOf []).dp_norm ∧
    (metricsOf []).kl_divergence = (metricsOf []).kl_divergence ∧
    (metricsOf []).jsd_dispersion = (metricsOf []).jsd_dispersion ∧
    (metricsOf []).hellinger_dispersion = (metricsOf []).hellinger_dispersion ∧
    (metricsOf []).mean_text_frequency_ft = (metricsOf []).mean_text_frequency_ft ∧
    (metricsOf []).pervasiveness_pt = (metricsOf []).pervasiveness_pt ∧
    (metricsOf []).evenness_da = (metricsOf []).evenness_da ∧
    (metricsOf []).ft_adjusted_by_pt = (metricsOf []).ft_adjusted_by_pt ∧
    (metricsOf []).ft_adjusted_by_da = (metricsOf []).ft_adjusted_by_da :=
  claim_C8_deterministic [] (metricsOf []) (metricsOf []) rfl rfl

end CorpusDispersion
